import Mathlib

/-!
Shallow embedding of `preprocess_dataset.py` (variant A of the emotions
splitter).  A CSV file is modelled as a `List (List String)` of rows; the
`defaultdict(set)` dictionaries mapping an emotion to its set of image names
are modelled as a `Finset (String × String)` of (emotion, image) pairs, whose
fiber at an emotion is the dictionary entry.  Positional row access that can
raise `IndexError`, and the `next(reader)` call that can raise
`StopIteration`, are modelled with `Option`: `none` is an uncaught exception.
Filesystem effects (`os.makedirs`, `shutil.copy`, `print` warnings) are
modelled as a trace of `Event`s; `os.path.exists` on the source path is an
oracle `String → Bool` keyed by image name.  The iteration order over the
`valid_emotions` set, unspecified for a Python set, is modelled as sorted
order; no claim below depends on the relative order of distinct emotions.
-/

namespace EmotionsSplitter

/-- Python's `str.strip()` on the character list: drop whitespace from both
ends. -/
def pyStrip (l : List Char) : List Char :=
  ((l.dropWhile Char.isWhitespace).reverse.dropWhile Char.isWhitespace).reverse

/-- Normalization applied to every emotion cell: `row[2].strip().lower()`,
that is strip surrounding whitespace and lowercase each character. -/
def normalizeEmotion (s : String) : String :=
  ((pyStrip s.toList).map Char.toLower).asString

/-- The lexicographic order on strings by character code points, the order
Python's `list.sort()` uses on strings. -/
def strLe (a b : String) : Prop :=
  a.toList.map Char.toNat ≤ b.toList.map Char.toNat

instance : DecidableRel strLe := fun a b =>
  inferInstanceAs (Decidable (a.toList.map Char.toNat ≤ b.toList.map Char.toNat))

instance : IsTrans String strLe := ⟨fun _ _ _ h1 h2 => le_trans h1 h2⟩

instance : IsTotal String strLe := ⟨fun _ _ => le_total _ _⟩

instance : IsAntisymm String strLe := ⟨fun a b h1 h2 => by
  have h3 : a.toList.map Char.toNat = b.toList.map Char.toNat := le_antisymm h1 h2
  have hinj : Function.Injective Char.toNat := fun x y hxy => by
    have hx := Char.ofNat_toNat x
    have hy := Char.ofNat_toNat y
    rw [← hx, ← hy, hxy]
  exact String.ext (List.map_injective_iff.mpr hinj h3)⟩

/-- Sorted enumeration of a multiset of strings: Python's `list(s)` followed
by `.sort()`.  The enumeration order of a Python set is unspecified, which
the quotient captures: the result is independent of the representative. -/
def sortMS (m : Multiset String) : List String :=
  Quot.liftOn m (fun l => List.insertionSort strLe l)
    (fun _ _ h => List.eq_of_perm_of_sorted
      ((List.perm_insertionSort _ _).trans (h.trans (List.perm_insertionSort _ _).symm))
      (List.sorted_insertionSort _ _) (List.sorted_insertionSort _ _))

/-- Row loop of `read_labels` (lines 17-21 of `preprocess_dataset.py`): each
row contributes the pair (normalized emotion from column 2, image name from
column 1).  A row with fewer than 3 columns makes the whole read fail, since
the positional access raises `IndexError`. -/
def readRows : List (List String) → Option (Finset (String × String))
  | [] => some ∅
  | row :: rest =>
    match row[1]?, row[2]?, readRows rest with
    | some img, some raw, some tail => some (insert (normalizeEmotion raw, img) tail)
    | _, _, _ => none

/-- The set of images recorded for one emotion: the fiber of the accumulated
`emotion_images` dictionary at that key (`defaultdict` returns `∅` for an
absent key). -/
def imagesOf (ps : Finset (String × String)) (e : String) : Finset String :=
  (ps.filter (fun p => p.1 = e)).image Prod.snd

/-- `read_labels` (lines 8-22): skip the header row unconditionally, then
accumulate `emotion_images` (the pair set) and `emotions_set` (its first
projection).  An empty file fails, since `next(reader)` raises. -/
def read_labels (rows : List (List String)) :
    Option (Finset (String × String) × Finset String) :=
  match rows with
  | [] => none
  | _ :: body => (readRows body).map (fun ps => (ps, ps.image Prod.fst))

/-- Row loop of `read_secondary_labels` (lines 34-41): the normalized emotion
is first remapped through the synonym table, and the row is kept only when
the remapped emotion is valid and the image is not already claimed by the
primary source. -/
def readSecondaryRows (valid : Finset String) (mapping : String → String)
    (primary : Finset String) : List (List String) → Option (Finset (String × String))
  | [] => some ∅
  | row :: rest =>
    match row[1]?, row[2]?, readSecondaryRows valid mapping primary rest with
    | some img, some raw, some tail =>
      if mapping (normalizeEmotion raw) ∈ valid then
        if img ∉ primary then some (insert (mapping (normalizeEmotion raw), img) tail)
        else some tail
      else some tail
    | _, _, _ => none

/-- `read_secondary_labels` (lines 25-42): skip the header row, then run the
filtered accumulation. -/
def read_secondary_labels (rows : List (List String)) (valid : Finset String)
    (mapping : String → String) (primary : Finset String) :
    Option (Finset (String × String)) :=
  match rows with
  | [] => none
  | _ :: body => readSecondaryRows valid mapping primary body

/-- The synonym table hard-coded in `organize_dataset` (lines 82-87), applied
via `label_mapping.get(emotion, emotion)`. -/
def label_mapping (e : String) : String :=
  if e = "sadness" then "sad"
  else if e = "happiness" then "happy"
  else if e = "fearful" then "fear"
  else e

/-- Observable effects of a run: directory creation, a file copy into
`<split>/<emotion>/<image>`, the two warning prints, and the final success
print. -/
inductive Event where
  | mkdir (split emotion : String)
  | copy (split emotion image : String)
  | warnCount (emotion : String) (count : Nat)
  | warnMissing (image : String)
  | success
  deriving DecidableEq, Repr

/-- The training ladder sizes (line 69). -/
def training_sizes : List Nat := [10, 20, 30, 40, 50]

/-- Lines 103-105: `images = list(combined); images.sort()`.  The list of a
Python set followed by a sort is exactly the sorted enumeration of the set. -/
def sortedImages (s : Finset String) : List String := sortMS s.val

/-- Line 111: `selected_images = images[:60]`. -/
def selectedOf (s : Finset String) : List String := (sortedImages s).take 60

/-- Line 113: `test_images = selected_images[-10:]`. -/
def testOf (s : Finset String) : List String :=
  (selectedOf s).drop ((selectedOf s).length - 10)

/-- Line 114: `training_images_full = selected_images[:-10]`. -/
def trainFullOf (s : Finset String) : List String :=
  (selectedOf s).take ((selectedOf s).length - 10)

/-- The pure split computation of lines 103-114 for one emotion's combined
image set: `none` when the emotion is skipped for having fewer than 60
images, otherwise the (test, full training pool) pair. -/
def splitEmotion (s : Finset String) : Option (List String × List String) :=
  if (sortedImages s).length < 60 then none
  else some (testOf s, trainFullOf s)

/-- Lines 120-123 and 132-135: copy the image when its source file exists,
otherwise print the missing-file warning and move on. -/
def copyOrWarn (ex : String → Bool) (split emotion image : String) : Event :=
  if ex image then Event.copy split emotion image else Event.warnMissing image

/-- One iteration of the per-emotion loop (lines 102-135) as an event trace:
the minimum-count gate with its warning, then the test copies, then the
ladder of training copies. -/
def processEmotion (ex : String → Bool) (e : String) (s : Finset String) : List Event :=
  if (sortedImages s).length < 60 then [Event.warnCount e (sortedImages s).length]
  else
    (testOf s).map (copyOrWarn ex "test" e)
    ++ training_sizes.flatMap (fun k =>
        ((trainFullOf s).take k).map (copyOrWarn ex ("train_" ++ toString k) e))

/-- `create_directories` (lines 45-60) as the trace of `os.makedirs` calls:
test directories for every emotion, then one training directory per size per
emotion. -/
def create_directories (emotions : List String) (sizes : List Nat) : List Event :=
  emotions.map (fun e => Event.mkdir "test" e)
  ++ sizes.flatMap (fun k => emotions.map (fun e => Event.mkdir ("train_" ++ toString k) e))

/-- Lines 79-89: the secondary map is empty when no secondary CSV is given,
and otherwise read with the hard-coded synonym table. -/
def secondaryFor (secondaryRows : Option (List (List String))) (valid : Finset String)
    (primaryNames : Finset String) : Option (Finset (String × String)) :=
  match secondaryRows with
  | none => some ∅
  | some rows => read_secondary_labels rows valid label_mapping primaryNames

/-- Lines 93-99: the combined image set of one emotion is the union of its
primary fiber and its secondary fiber. -/
def combinedOf (ps sec : Finset (String × String)) (e : String) : Finset String :=
  imagesOf ps e ∪ imagesOf sec e

/-- `organize_dataset` (lines 63-137) as an event trace: read the primary
labels, read the secondary labels against the primary claim set, create every
destination directory, process each valid emotion, and finally print the
success message.  `none` is an uncaught exception from CSV parsing. -/
def organize_dataset (ex : String → Bool) (primaryRows : List (List String))
    (secondaryRows : Option (List (List String))) : Option (List Event) :=
  match read_labels primaryRows with
  | none => none
  | some (ps, valid) =>
    match secondaryFor secondaryRows valid (ps.image Prod.snd) with
    | none => none
    | some sec =>
      some (create_directories (sortMS valid.val) training_sizes
        ++ (sortMS valid.val).flatMap
            (fun e => processEmotion ex e (combinedOf ps sec e))
        ++ [Event.success])

/-- Lines 103-114 once more, but starting from `list(combined_set)` before the
sort, to state determinism: the input list stands for one arbitrary
enumeration of the combined set by a run. -/
def splitFromList (l : List String) : Option (List String × List String) :=
  let images := List.insertionSort strLe l
  if images.length < 60 then none
  else
    let selected := images.take 60
    some (selected.drop (selected.length - 10), selected.take (selected.length - 10))

/-- Concrete 60 distinct two-character image names, for witnesses. -/
def w60 : List String :=
  (List.range 60).map (fun i => String.mk [Char.ofNat (65 + i / 10), Char.ofNat (48 + i % 10)])

/-- The 60 names as a set. -/
def W60 : Finset String := w60.toFinset

/-- Concrete 61 distinct two-character image names, for witnesses. -/
def w61 : List String :=
  (List.range 61).map (fun i => String.mk [Char.ofNat (65 + i / 10), Char.ofNat (48 + i % 10)])

/-- The 61 names as a set. -/
def W61 : Finset String := w61.toFinset

/-- Concrete 59 distinct two-character image names, for witnesses. -/
def w59 : List String :=
  (List.range 59).map (fun i => String.mk [Char.ofNat (65 + i / 10), Char.ofNat (48 + i % 10)])

/-- The 59 names as a set. -/
def W59 : Finset String := w59.toFinset

/-- A CSV assigning the same image to two different emotions. -/
def csvDupRows : List (List String) :=
  [["idx", "image", "emotion"], ["0", "a.jpg", "Happy"], ["1", "a.jpg", "sad"]]

/-- A CSV whose two data rows differ only in the case and surrounding
whitespace of the emotion cell. -/
def csvCaseRows : List (List String) :=
  [["idx", "image", "emotion"], ["0", "a.jpg", "Happy"], ["1", "b.jpg", " happy "]]

/-- A CSV with a malformed two-column data row. -/
def csvShortRows : List (List String) :=
  [["idx", "image", "emotion"], ["0", "a.jpg"]]

/-- The secondary CSV of the spec's merge example: `a.jpg` is a primary
duplicate and `b.jpg` carries the synonym `happiness`. -/
def csvSecondaryRows : List (List String) :=
  [["idx", "image", "emotion"], ["0", "a.jpg", "happy"], ["1", "b.jpg", "happiness"]]

/-- A one-emotion primary CSV whose emotion has a single image. -/
def csvOneRow : List (List String) :=
  [["idx", "image", "emotion"], ["0", "a.jpg", "happy"]]

/-- The event trace of a run on `csvOneRow` with no secondary CSV: all six
destination directories are created, then the single emotion is skipped with
a count warning, then the success message prints. -/
def evsOne : List Event :=
  [Event.mkdir "test" "happy", Event.mkdir "train_10" "happy",
   Event.mkdir "train_20" "happy", Event.mkdir "train_30" "happy",
   Event.mkdir "train_40" "happy", Event.mkdir "train_50" "happy",
   Event.warnCount "happy" 1, Event.success]

theorem readRows_eq_none {body : List (List String)} {row : List String}
    (hmem : row ∈ body) (hlen : row.length < 3) : readRows body = none := by
  induction body with
  | nil => cases hmem
  | cons r rest ih =>
    rcases List.mem_cons.mp hmem with hr | hr
    · subst hr
      have h2 : row[2]? = none := List.getElem?_eq_none (by omega)
      cases h1 : row[1]? <;> simp [readRows, h1, h2]
    · have h3 := ih hr
      cases h1 : r[1]? <;> cases hq : r[2]? <;> simp [readRows, h1, hq, h3]

theorem readSecondaryRows_eq_none {body : List (List String)} {row : List String}
    (valid : Finset String) (mapping : String → String) (primary : Finset String)
    (hmem : row ∈ body) (hlen : row.length < 3) :
    readSecondaryRows valid mapping primary body = none := by
  induction body with
  | nil => cases hmem
  | cons r rest ih =>
    rcases List.mem_cons.mp hmem with hr | hr
    · subst hr
      have h2 : row[2]? = none := List.getElem?_eq_none (by omega)
      cases h1 : row[1]? <;> simp [readSecondaryRows, h1, h2]
    · have h3 := ih hr
      cases h1 : r[1]? <;> cases hq : r[2]? <;> simp [readSecondaryRows, h1, hq, h3]

/-- C8: for a CSV containing a non-header data row with fewer than 3 columns,
both `read_labels` and `read_secondary_labels` fail (the positional access at
index 1 or 2 is out of range), rather than skipping the row or warning. -/
theorem short_row_raises (hdr row : List String) (body : List (List String))
    (valid : Finset String) (mapping : String → String) (primary : Finset String)
    (hmem : row ∈ body) (hlen : row.length < 3) :
    read_labels (hdr :: body) = none ∧
    read_secondary_labels (hdr :: body) valid mapping primary = none := by
  refine ⟨?_, ?_⟩
  · simp [read_labels, readRows_eq_none hmem hlen]
  · simp [read_secondary_labels, readSecondaryRows_eq_none valid mapping primary hmem hlen]

/-- Witness for C8 on the concrete CSV `csvShortRows`. -/
theorem short_row_raises_witness :
    (["0", "a.jpg"] : List String) ∈ [(["0", "a.jpg"] : List String)] ∧
    (["0", "a.jpg"] : List String).length < 3 ∧
    read_labels csvShortRows = none ∧
    read_secondary_labels csvShortRows ∅ label_mapping ∅ = none := by
  have h := short_row_raises ["idx", "image", "emotion"] ["0", "a.jpg"]
    [["0", "a.jpg"]] ∅ label_mapping ∅ (by decide) (by decide)
  exact ⟨by decide, by decide, h.1, h.2⟩

theorem mem_imagesOf {ps : Finset (String × String)} {e img : String} :
    img ∈ imagesOf ps e ↔ (e, img) ∈ ps := by
  simp only [imagesOf, Finset.mem_image, Finset.mem_filter, Prod.exists]
  constructor
  · rintro ⟨a, b, ⟨hmem, ha⟩, hb⟩
    subst ha; subst hb; exact hmem
  · intro h; exact ⟨e, img, ⟨h, rfl⟩, rfl⟩

theorem mem_readRows {body : List (List String)} {ps : Finset (String × String)}
    (h : readRows body = some ps) (e img : String) :
    (e, img) ∈ ps ↔ ∃ row ∈ body, row[1]? = some img ∧
      ∃ raw, row[2]? = some raw ∧ normalizeEmotion raw = e := by
  induction body generalizing ps with
  | nil =>
    simp only [readRows, Option.some.injEq] at h
    subst h; simp
  | cons r rest ih =>
    cases h1 : r[1]? with
    | none => simp [readRows, h1] at h
    | some img1 =>
      cases h2 : r[2]? with
      | none => simp [readRows, h1, h2] at h
      | some raw1 =>
        cases h3 : readRows rest with
        | none => simp [readRows, h1, h2, h3] at h
        | some tail =>
          simp only [readRows, h1, h2, h3, Option.some.injEq] at h
          subst h
          simp only [Finset.mem_insert, List.mem_cons, Prod.mk.injEq]
          constructor
          · rintro (⟨he, hi⟩ | htail)
            · exact ⟨r, Or.inl rfl, hi ▸ h1, raw1, h2, he.symm⟩
            · obtain ⟨row, hrow, hrest⟩ := (ih h3).mp htail
              exact ⟨row, Or.inr hrow, hrest⟩
          · rintro ⟨row, hrow | hrow, hcol1, raw, hcol2, hnorm⟩
            · subst hrow
              rw [h1, Option.some.injEq] at hcol1
              rw [h2, Option.some.injEq] at hcol2
              subst hcol2
              exact Or.inl ⟨hnorm.symm, hcol1.symm⟩
            · exact Or.inr ((ih h3).mpr ⟨row, hrow, hcol1, raw, hcol2, hnorm⟩)

theorem mem_readSecondaryRows {valid : Finset String} {mapping : String → String}
    {primary : Finset String} {body : List (List String)} {ps : Finset (String × String)}
    (h : readSecondaryRows valid mapping primary body = some ps) :
    ∀ e img, (e, img) ∈ ps →
      img ∉ primary ∧ e ∈ valid ∧
      ∃ row ∈ body, row[1]? = some img ∧
        ∃ raw, row[2]? = some raw ∧ mapping (normalizeEmotion raw) = e := by
  induction body generalizing ps with
  | nil =>
    simp only [readSecondaryRows, Option.some.injEq] at h
    subst h; simp
  | cons r rest ih =>
    intro e img hmem
    cases h1 : r[1]? with
    | none => simp [readSecondaryRows, h1] at h
    | some img1 =>
      cases h2 : r[2]? with
      | none => simp [readSecondaryRows, h1, h2] at h
      | some raw1 =>
        cases h3 : readSecondaryRows valid mapping primary rest with
        | none => simp [readSecondaryRows, h1, h2, h3] at h
        | some tail =>
          have htail : ∀ e2 img2, (e2, img2) ∈ tail →
              img2 ∉ primary ∧ e2 ∈ valid ∧
              ∃ row ∈ r :: rest, row[1]? = some img2 ∧
                ∃ raw, row[2]? = some raw ∧ mapping (normalizeEmotion raw) = e2 := by
            intro e2 img2 hm2
            obtain ⟨hp, hv, row, hrow, hrest⟩ := ih h3 e2 img2 hm2
            exact ⟨hp, hv, row, List.mem_cons_of_mem r hrow, hrest⟩
          simp only [readSecondaryRows, h1, h2, h3] at h
          by_cases hval : mapping (normalizeEmotion raw1) ∈ valid
          · by_cases hprim : img1 ∉ primary
            · rw [if_pos hval, if_pos hprim, Option.some.injEq] at h
              subst h
              rcases Finset.mem_insert.mp hmem with heq | hm
              · simp only [Prod.mk.injEq] at heq
                obtain ⟨he, hi⟩ := heq
                subst he; subst hi
                exact ⟨hprim, hval, r, List.mem_cons_self r rest, h1, raw1, h2, rfl⟩
              · exact htail e img hm
            · rw [if_pos hval, if_neg hprim, Option.some.injEq] at h
              subst h; exact htail e img hmem
          · rw [if_neg hval, Option.some.injEq] at h
            subst h; exact htail e img hmem

/-- C7: `read_labels` unconditionally discards the first row (the result does
not depend on it), takes column index 1 as the image name and column index 2
as the emotion, stores the emotion trimmed and lowercased, and therefore
accumulates rows whose emotion cells differ only in case or surrounding
whitespace under the same emotion key. -/
theorem read_labels_shape (hdr : List String) (body : List (List String))
    (ps : Finset (String × String)) (hread : readRows body = some ps) :
    read_labels (hdr :: body) = some (ps, ps.image Prod.fst) ∧
    (∀ e img, img ∈ imagesOf ps e ↔ ∃ row ∈ body, row[1]? = some img ∧
      ∃ raw, row[2]? = some raw ∧ normalizeEmotion raw = e) ∧
    (∀ r1 r2 i1 i2 raw1 raw2, r1 ∈ body → r2 ∈ body →
      r1[1]? = some i1 → r2[1]? = some i2 →
      r1[2]? = some raw1 → r2[2]? = some raw2 →
      normalizeEmotion raw1 = normalizeEmotion raw2 →
      i1 ∈ imagesOf ps (normalizeEmotion raw1) ∧
      i2 ∈ imagesOf ps (normalizeEmotion raw1)) := by
  refine ⟨by simp [read_labels, hread], ?_, ?_⟩
  · intro e img
    rw [mem_imagesOf]
    exact mem_readRows hread e img
  · intro r1 r2 i1 i2 raw1 raw2 h1 h2 hc1 hc2 hr1 hr2 hnorm
    constructor
    · rw [mem_imagesOf, mem_readRows hread]
      exact ⟨r1, h1, hc1, raw1, hr1, rfl⟩
    · rw [mem_imagesOf, mem_readRows hread]
      exact ⟨r2, h2, hc2, raw2, hr2, hnorm.symm⟩

/-- Witness for C7: two rows labelled `Happy` and ` happy ` land in the fiber
of the single key `happy`, independently of the header row. -/
theorem read_labels_shape_witness :
    readRows [["0", "a.jpg", "Happy"], ["1", "b.jpg", " happy "]]
      = some {("happy", "a.jpg"), ("happy", "b.jpg")} ∧
    "a.jpg" ∈ imagesOf {("happy", "a.jpg"), ("happy", "b.jpg")} "happy" ∧
    "b.jpg" ∈ imagesOf {("happy", "a.jpg"), ("happy", "b.jpg")} "happy" := by
  have hread : readRows [["0", "a.jpg", "Happy"], ["1", "b.jpg", " happy "]]
      = some {("happy", "a.jpg"), ("happy", "b.jpg")} := by decide
  have h := (read_labels_shape ["idx", "image", "emotion"] _ _ hread).2.2
    ["0", "a.jpg", "Happy"] ["1", "b.jpg", " happy "] "a.jpg" "b.jpg" "Happy" " happy "
    (by decide) (by decide) (by decide) (by decide) (by decide) (by decide) (by decide)
  have hn : normalizeEmotion "Happy" = "happy" := by decide
  rw [hn] at h
  exact ⟨hread, h.1, h.2⟩

/-- C3 counterexample: a CSV may map one image name to two different emotions;
`read_labels` performs no cross-emotion duplicate check, so the claimed
disjointness invariant fails on `csvDupRows`. -/
theorem dup_image_counterexample :
    read_labels csvDupRows
      = some ({("happy", "a.jpg"), ("sad", "a.jpg")}, {"happy", "sad"}) ∧
    "a.jpg" ∈ imagesOf {("happy", "a.jpg"), ("sad", "a.jpg")} "happy" ∧
    "a.jpg" ∈ imagesOf {("happy", "a.jpg"), ("sad", "a.jpg")} "sad" ∧
    ("happy" : String) ≠ "sad" := by decide

/-- C3 amended: the disjointness invariant holds exactly under an input-side
condition: when any two data rows carrying the same column-1 image name have
emotion cells that normalize identically, distinct emotion keys of the
`read_labels` result have disjoint image sets. -/
theorem read_labels_disjoint_of_consistent (body : List (List String))
    (ps : Finset (String × String)) (hread : readRows body = some ps)
    (hcons : ∀ r1 ∈ body, ∀ r2 ∈ body, r1[1]? = r2[1]? →
      (r1[2]?).map normalizeEmotion = (r2[2]?).map normalizeEmotion)
    (e1 e2 : String) (hne : e1 ≠ e2) :
    ∀ img, img ∈ imagesOf ps e1 → img ∉ imagesOf ps e2 := by
  intro img h1 h2
  rw [mem_imagesOf] at h1 h2
  obtain ⟨r1, hr1, hc1, raw1, hraw1, hn1⟩ := (mem_readRows hread e1 img).mp h1
  obtain ⟨r2, hr2, hc2, raw2, hraw2, hn2⟩ := (mem_readRows hread e2 img).mp h2
  apply hne
  have hmap := hcons r1 hr1 r2 hr2 (hc1.trans hc2.symm)
  rw [hraw1, hraw2, Option.map_some', Option.map_some', Option.some.injEq] at hmap
  rw [← hn1, ← hn2, hmap]

/-- Witness for C3's amended statement on a consistent two-row CSV. -/
theorem read_labels_disjoint_witness :
    readRows csvCaseRows.tail = some {("happy", "a.jpg"), ("happy", "b.jpg")} ∧
    "a.jpg" ∉ imagesOf {("happy", "a.jpg"), ("happy", "b.jpg")} "sad" := by
  have hread : readRows csvCaseRows.tail
      = some {("happy", "a.jpg"), ("happy", "b.jpg")} := by decide
  refine ⟨hread, ?_⟩
  exact read_labels_disjoint_of_consistent csvCaseRows.tail _ hread (by decide)
    "happy" "sad" (by decide) "a.jpg" (by decide)

/-- C2: every (emotion, image) pair produced by `read_secondary_labels` has
its emotion remapped through the synonym table before the membership checks,
lies in the valid-emotion set, and its image name is outside the primary
claim set; hence the secondary merge output never contains a primary image. -/
theorem secondary_excludes_primary (rows : List (List String)) (valid : Finset String)
    (mapping : String → String) (primary : Finset String) (sec : Finset (String × String))
    (hread : read_secondary_labels rows valid mapping primary = some sec) :
    ∀ e img, img ∈ imagesOf sec e →
      img ∉ primary ∧ e ∈ valid ∧
      ∃ row ∈ rows.tail, row[1]? = some img ∧
        ∃ raw, row[2]? = some raw ∧ mapping (normalizeEmotion raw) = e := by
  intro e img hmem
  rw [mem_imagesOf] at hmem
  cases rows with
  | nil => simp [read_secondary_labels] at hread
  | cons hdr body =>
    simp only [read_secondary_labels] at hread
    simpa using mem_readSecondaryRows hread e img hmem

/-- Witness for C2 on the spec's merge example: the secondary `a.jpg` row is
dropped as a primary duplicate and `b.jpg` survives under the remapped key. -/
theorem secondary_excludes_primary_witness :
    read_secondary_labels csvSecondaryRows {"happy"} label_mapping {"a.jpg"}
      = some {("happy", "b.jpg")} ∧
    "b.jpg" ∉ ({"a.jpg"} : Finset String) ∧
    "happy" ∈ ({"happy"} : Finset String) := by
  have hread : read_secondary_labels csvSecondaryRows {"happy"} label_mapping {"a.jpg"}
      = some {("happy", "b.jpg")} := by decide
  have h := secondary_excludes_primary csvSecondaryRows {"happy"} label_mapping
    {"a.jpg"} _ hread "happy" "b.jpg" (by decide)
  exact ⟨hread, h.1, h.2.1⟩

/-- C5: the variant-A split is deterministic: two runs that enumerate the
same combined image set in any two orders (any two permutations of one list)
produce exactly the same split, because the list is sorted before slicing and
no randomness is used. -/
theorem split_deterministic (l1 l2 : List String) (h : l1.Perm l2) :
    splitFromList l1 = splitFromList l2 := by
  have hsort : List.insertionSort strLe l1
      = List.insertionSort strLe l2 :=
    List.eq_of_perm_of_sorted
      (((List.perm_insertionSort _ l1).trans h).trans
        (List.perm_insertionSort _ l2).symm)
      (List.sorted_insertionSort _ l1) (List.sorted_insertionSort _ l2)
  simp only [splitFromList, hsort]

/-- Witness for C5: two enumeration orders of the same two-image set. -/
theorem split_deterministic_witness :
    (["b.jpg", "a.jpg"] : List String).Perm ["a.jpg", "b.jpg"] ∧
    splitFromList ["b.jpg", "a.jpg"] = splitFromList ["a.jpg", "b.jpg"] :=
  ⟨by decide, split_deterministic ["b.jpg", "a.jpg"] ["a.jpg", "b.jpg"] (by decide)⟩

theorem sortMS_coe (m : Multiset String) : (sortMS m : Multiset String) = m := by
  induction m using Quot.inductionOn with
  | h l => exact Quot.sound (List.perm_insertionSort _ _)

theorem length_sortedImages (s : Finset String) : (sortedImages s).length = s.card := by
  have h := congrArg Multiset.card (sortMS_coe s.val)
  rw [Multiset.coe_card] at h
  exact h

theorem nodup_sortedImages (s : Finset String) : (sortedImages s).Nodup := by
  have h := sortMS_coe s.val
  have hn := s.nodup
  rw [← h] at hn
  exact Multiset.coe_nodup.mp hn

theorem mem_sortedImages {s : Finset String} {a : String} :
    a ∈ sortedImages s ↔ a ∈ s := by
  have h := sortMS_coe s.val
  constructor
  · intro ha
    have h2 : a ∈ (sortMS s.val : Multiset String) := Multiset.mem_coe.mpr ha
    rw [h] at h2
    exact h2
  · intro ha
    have h2 : a ∈ (sortMS s.val : Multiset String) := by
      rw [h]; exact ha
    exact Multiset.mem_coe.mp h2

theorem mem_processEmotion {ex : String → Bool} {e : String} {s : Finset String}
    {ev : Event} (h60 : ¬ (sortedImages s).length < 60)
    (hev : ev ∈ processEmotion ex e s) :
    (∃ img ∈ testOf s, ev = copyOrWarn ex "test" e img) ∨
    (∃ k ∈ training_sizes, ∃ img ∈ (trainFullOf s).take k,
      ev = copyOrWarn ex ("train_" ++ toString k) e img) := by
  simp only [processEmotion, if_neg h60, List.mem_append, List.mem_map,
    List.mem_flatMap] at hev
  rcases hev with ⟨img, hmem, hev⟩ | ⟨k, hk, img, hmem, hev⟩
  · exact Or.inl ⟨img, hmem, hev.symm⟩
  · exact Or.inr ⟨k, hk, img, hmem, hev.symm⟩

theorem copy_emotion_eq {ex : String → Bool} {sp em img e : String}
    {s : Finset String} (h : Event.copy sp em img ∈ processEmotion ex e s) :
    em = e ∧ ex img = true := by
  by_cases h60 : (sortedImages s).length < 60
  · simp [processEmotion, h60] at h
  · rcases mem_processEmotion h60 h with ⟨i, _, hev⟩ | ⟨k, _, i, _, hev⟩ <;>
      cases hex : ex i <;> simp [copyOrWarn, hex] at hev <;>
      exact ⟨hev.2.1, hev.2.2 ▸ hex⟩

theorem processEmotion_no_mkdir {ex : String → Bool} {e : String} {s : Finset String}
    {ev : Event} (h : ev ∈ processEmotion ex e s) :
    ∀ sp em, ev ≠ Event.mkdir sp em := by
  by_cases h60 : (sortedImages s).length < 60
  · simp only [processEmotion, if_pos h60, List.mem_singleton] at h
    subst h; intro sp em; simp
  · rcases mem_processEmotion h60 h with ⟨i, _, hev⟩ | ⟨k, _, i, _, hev⟩ <;>
      subst hev <;> intro sp em <;> cases hex : ex i <;> simp [copyOrWarn, hex]

/-- C1: for an emotion with at least 60 combined images, the split takes the
first 60 sorted images, the test set is exactly the last 10 of them (size
10), the full training pool is the first 50, each `train_k` is a take-k of
that pool so the training sets are nested, and the training pool is disjoint
from the test set. -/
theorem split_ladder (s : Finset String) (h : 60 ≤ s.card) :
    splitEmotion s = some (testOf s, trainFullOf s) ∧
    testOf s = ((sortedImages s).take 60).drop 50 ∧
    (testOf s).length = 10 ∧
    trainFullOf s = ((sortedImages s).take 60).take 50 ∧
    (∀ j k, j ≤ k → (trainFullOf s).take j ⊆ (trainFullOf s).take k) ∧
    (∀ x ∈ (trainFullOf s).take 50, x ∉ testOf s) := by
  have hlen : (sortedImages s).length = s.card := length_sortedImages s
  have h60 : ¬ (sortedImages s).length < 60 := by omega
  have hsel : (selectedOf s).length = 60 := by
    simp only [selectedOf, List.length_take]
    omega
  refine ⟨by simp [splitEmotion, h60], ?_, ?_, ?_, ?_, ?_⟩
  · simp only [testOf, hsel]
    norm_num [selectedOf]
  · simp only [testOf, hsel, List.length_drop]
  · simp only [trainFullOf, hsel]
    norm_num [selectedOf]
  · intro j k hjk
    have hjk2 : (trainFullOf s).take j = ((trainFullOf s).take k).take j := by
      rw [List.take_take, min_eq_left hjk]
    rw [hjk2]
    exact List.take_subset _ _
  · intro x hx1 hx2
    have hnodupSel : (selectedOf s).Nodup :=
      (nodup_sortedImages s).sublist (List.take_sublist _ _)
    have hsplit := List.take_append_drop 50 (selectedOf s)
    have hd := (List.nodup_append.mp (by rw [hsplit]; exact hnodupSel)).2.2
    have hx1b : x ∈ (selectedOf s).take 50 := by
      have hx1c : x ∈ trainFullOf s := List.take_subset _ _ hx1
      rw [trainFullOf, hsel] at hx1c
      exact hx1c
    have hx2b : x ∈ (selectedOf s).drop 50 := by
      rw [testOf, hsel] at hx2
      exact hx2
    exact hd hx1b hx2b

/-- Witness for C1 on a concrete 60-image set. -/
theorem split_ladder_witness :
    60 ≤ W60.card ∧
    splitEmotion W60 = some (testOf W60, trainFullOf W60) ∧
    (testOf W60).length = 10 := by
  have hcard : 60 ≤ W60.card := by decide
  have h := split_ladder W60 hcard
  exact ⟨hcard, h.1, h.2.2.1⟩

/-- C6: for an emotion with more than 60 combined images, an image outside
the first 60 in sorted order appears in no test set, no train set of any
size, and in no event of the emotion's trace, and the excess produces no
count warning. -/
theorem excess_images_discarded (s : Finset String) (h : 60 < s.card)
    (ex : String → Bool) (e img : String) (hmem : img ∈ s)
    (hsel : img ∉ selectedOf s) :
    (∀ c n, Event.warnCount c n ∉ processEmotion ex e s) ∧
    img ∉ testOf s ∧
    (∀ k, img ∉ (trainFullOf s).take k) ∧
    (∀ ev ∈ processEmotion ex e s,
      (∀ sp em, ev ≠ Event.copy sp em img) ∧ ev ≠ Event.warnMissing img) := by
  have hlen : (sortedImages s).length = s.card := length_sortedImages s
  have h60 : ¬ (sortedImages s).length < 60 := by omega
  have htest : img ∉ testOf s := fun hx => hsel (List.drop_subset _ _ hx)
  have htrain : ∀ k, img ∉ (trainFullOf s).take k := fun k hx =>
    hsel (List.take_subset _ _ (List.take_subset _ _ hx))
  refine ⟨?_, htest, htrain, ?_⟩
  · intro c n hc
    rcases mem_processEmotion h60 hc with ⟨i, _, hev⟩ | ⟨k, _, i, _, hev⟩ <;>
      cases hex : ex i <;> simp [copyOrWarn, hex] at hev
  · intro ev hev
    rcases mem_processEmotion h60 hev with ⟨i, hi, hev2⟩ | ⟨k, _, i, hi, hev2⟩ <;>
      subst hev2 <;>
      have hne : i ≠ img := by
        intro hii
        subst hii
        first
          | exact htest hi
          | exact htrain _ hi
    all_goals
      cases hex : ex i <;> simp [copyOrWarn, hex, hne]

/-- Witness for C6 on a concrete 61-image set: the lexicographically largest
name `G0` is the excess image. -/
theorem excess_images_discarded_witness :
    60 < W61.card ∧ "G0" ∈ W61 ∧ "G0" ∉ selectedOf W61 ∧
    "G0" ∉ testOf W61 ∧ ∀ k, "G0" ∉ (trainFullOf W61).take k := by
  have h := excess_images_discarded W61 (by decide) (fun _ => true) "happy" "G0"
    (by decide) (by decide)
  exact ⟨by decide, by decide, by decide, h.2.1, h.2.2.1⟩

/-- C4: an emotion with fewer than 60 combined images is skipped without
raising: the whole run emits the count warning carrying the actual image
count for it, and no copy event for that emotion appears anywhere in the
trace. -/
theorem organize_skips_small (ex : String → Bool) (primaryRows : List (List String))
    (secondaryRows : Option (List (List String)))
    (ps : Finset (String × String)) (valid : Finset String)
    (sec : Finset (String × String)) (evs : List Event) (e : String)
    (hread : read_labels primaryRows = some (ps, valid))
    (hsec : secondaryFor secondaryRows valid (ps.image Prod.snd) = some sec)
    (horg : organize_dataset ex primaryRows secondaryRows = some evs)
    (hmem : e ∈ valid) (hcard : (combinedOf ps sec e).card < 60) :
    Event.warnCount e (combinedOf ps sec e).card ∈ evs ∧
    (∀ sp img, Event.copy sp e img ∉ evs) := by
  have hlen : (sortedImages (combinedOf ps sec e)).length = (combinedOf ps sec e).card :=
    length_sortedImages _
  have hproc : processEmotion ex e (combinedOf ps sec e)
      = [Event.warnCount e (combinedOf ps sec e).card] := by
    rw [processEmotion, hlen, if_pos hcard]
  simp only [organize_dataset, hread, hsec, Option.some.injEq] at horg
  subst horg
  constructor
  · refine List.mem_append.mpr (Or.inl (List.mem_append.mpr (Or.inr ?_)))
    refine List.mem_flatMap.mpr ⟨e, ?_, ?_⟩
    · exact mem_sortedImages.mpr hmem
    · rw [hproc]; exact List.mem_singleton.mpr rfl
  · intro sp img hcopy
    rcases List.mem_append.mp hcopy with hd | hsucc
    · rcases List.mem_append.mp hd with hdirs | hloop
      · rcases List.mem_append.mp hdirs with hd1 | hd2
        · rcases List.mem_map.mp hd1 with ⟨em, _, hbad⟩
          cases hbad
        · rcases List.mem_flatMap.mp hd2 with ⟨k, _, hd3⟩
          rcases List.mem_map.mp hd3 with ⟨em, _, hbad⟩
          cases hbad
      · rcases List.mem_flatMap.mp hloop with ⟨e2, _, hin⟩
        have he2 : e = e2 := (copy_emotion_eq hin).1
        subst he2
        rw [hproc] at hin
        exact Event.noConfusion (List.mem_singleton.mp hin)
    · exact Event.noConfusion (List.mem_singleton.mp hsucc)

/-- Witness for C4: a one-image emotion is skipped, its warning carries the
count 1, all six directories are still created, and no copy happens. -/
theorem organize_skips_small_witness :
    organize_dataset (fun _ => true) csvOneRow none = some evsOne ∧
    Event.warnCount "happy" 1 ∈ evsOne ∧
    (∀ sp img, Event.copy sp "happy" img ∉ evsOne) := by
  have horg : organize_dataset (fun _ => true) csvOneRow none = some evsOne := by decide
  have hread : read_labels csvOneRow = some ({("happy", "a.jpg")}, {"happy"}) := by decide
  have h := organize_skips_small (fun _ => true) csvOneRow none
    {("happy", "a.jpg")} {"happy"} ∅ evsOne "happy" hread rfl horg
    (by decide) (by decide)
  have hcard : (combinedOf {("happy", "a.jpg")} ∅ "happy").card = 1 := by decide
  rw [hcard] at h
  exact ⟨horg, h.1, h.2⟩

/-- C9: any selected image — in the test set or in the training pool — whose
source file does not exist gets the missing-file warning and is not copied
anywhere in its emotion's trace, the remaining existing images of the test
loop and of every train loop are still copied, and every completed run's
trace ends with the success message. -/
theorem missing_file_skipped (ex : String → Bool) (e : String) (s : Finset String)
    (img : String) (h60 : 60 ≤ s.card) (hmem : img ∈ selectedOf s)
    (hmiss : ex img = false) :
    Event.warnMissing img ∈ processEmotion ex e s ∧
    (∀ sp em, Event.copy sp em img ∉ processEmotion ex e s) ∧
    (∀ img2 ∈ testOf s, ex img2 = true →
      Event.copy "test" e img2 ∈ processEmotion ex e s) ∧
    (∀ k ∈ training_sizes, ∀ img2 ∈ (trainFullOf s).take k, ex img2 = true →
      Event.copy ("train_" ++ toString k) e img2 ∈ processEmotion ex e s) ∧
    (∀ primaryRows secondaryRows evs,
      organize_dataset ex primaryRows secondaryRows = some evs →
      Event.success ∈ evs) := by
  have hlen : (sortedImages s).length = s.card := length_sortedImages s
  have hn60 : ¬ (sortedImages s).length < 60 := by omega
  have hsel : (selectedOf s).length = 60 := by
    simp only [selectedOf, List.length_take]
    omega
  refine ⟨?_, ?_, ?_, ?_, ?_⟩
  · have hsplit : trainFullOf s ++ testOf s = selectedOf s :=
      List.take_append_drop _ _
    rw [← hsplit] at hmem
    simp only [processEmotion, if_neg hn60, List.mem_append]
    rcases List.mem_append.mp hmem with htr | hte
    · refine Or.inr (List.mem_flatMap.mpr ⟨50, by decide, ?_⟩)
      have htake : (trainFullOf s).take 50 = trainFullOf s := by
        apply List.take_of_length_le
        simp only [trainFullOf, hsel, List.length_take]
        omega
      rw [htake]
      refine List.mem_map.mpr ⟨img, htr, ?_⟩
      simp [copyOrWarn, hmiss]
    · refine Or.inl (List.mem_map.mpr ⟨img, hte, ?_⟩)
      simp [copyOrWarn, hmiss]
  · intro sp em hcopy
    have hex := (copy_emotion_eq hcopy).2
    rw [hmiss] at hex
    cases hex
  · intro img2 _ hex2
    simp only [processEmotion, if_neg hn60, List.mem_append]
    refine Or.inl (List.mem_map.mpr ⟨img2, by assumption, ?_⟩)
    simp [copyOrWarn, hex2]
  · intro k hk img2 hmem2 hex2
    simp only [processEmotion, if_neg hn60, List.mem_append]
    refine Or.inr (List.mem_flatMap.mpr ⟨k, hk, List.mem_map.mpr ⟨img2, hmem2, ?_⟩⟩)
    simp [copyOrWarn, hex2]
  · intro primaryRows secondaryRows evs horg
    cases hr : read_labels primaryRows with
    | none => simp [organize_dataset, hr] at horg
    | some pv =>
      obtain ⟨ps, valid⟩ := pv
      cases hs : secondaryFor secondaryRows valid (ps.image Prod.snd) with
      | none => simp [organize_dataset, hr, hs] at horg
      | some sec =>
        simp only [organize_dataset, hr, hs, Option.some.injEq] at horg
        subst horg
        refine List.mem_append.mpr (Or.inr ?_)
        exact List.mem_singleton.mpr rfl

/-- Witness for C9 on a concrete 60-image set with the training-pool image
`C3` missing on disk: the warning appears, `C3` is copied nowhere, and both
a test image and a train_10 image with existing files are still copied. -/
theorem missing_file_skipped_witness :
    60 ≤ W60.card ∧ "C3" ∈ selectedOf W60 ∧
    Event.warnMissing "C3" ∈ processEmotion (fun i => i != "C3") "happy" W60 ∧
    (∀ sp em, Event.copy sp em "C3" ∉ processEmotion (fun i => i != "C3") "happy" W60) ∧
    Event.copy "test" "happy" "F4" ∈ processEmotion (fun i => i != "C3") "happy" W60 ∧
    Event.copy "train_10" "happy" "A1" ∈ processEmotion (fun i => i != "C3") "happy" W60 := by
  have h := missing_file_skipped (fun i => i != "C3") "happy" W60 "C3"
    (by decide) (by decide) (by decide)
  have h10 := h.2.2.2.1 10 (by decide) "A1" (by decide) (by decide)
  have hstr : "train_" ++ toString (10 : Nat) = "train_10" := by decide
  rw [hstr] at h10
  exact ⟨by decide, by decide, h.1, h.2.1, h.2.2.1 "F4" (by decide) (by decide), h10⟩

/-- C10: the run creates the destination directory for every (split, emotion)
pair of every emotion found in the primary CSV before any per-emotion
processing: the trace starts with the directory events, which include the
test directory and all five training directories even for an emotion the
minimum-count gate later skips, and no directory is created afterwards. -/
theorem directories_before_gate (ex : String → Bool) (primaryRows : List (List String))
    (secondaryRows : Option (List (List String)))
    (ps : Finset (String × String)) (valid : Finset String)
    (sec : Finset (String × String)) (evs : List Event) (e : String)
    (hread : read_labels primaryRows = some (ps, valid))
    (hsec : secondaryFor secondaryRows valid (ps.image Prod.snd) = some sec)
    (horg : organize_dataset ex primaryRows secondaryRows = some evs)
    (hmem : e ∈ valid) :
    ∃ post, evs = create_directories (sortedImages valid) training_sizes ++ post ∧
      (∀ ev ∈ create_directories (sortedImages valid) training_sizes,
        ∃ sp em, ev = Event.mkdir sp em) ∧
      Event.mkdir "test" e ∈ create_directories (sortedImages valid) training_sizes ∧
      (∀ k ∈ training_sizes, Event.mkdir ("train_" ++ toString k) e
        ∈ create_directories (sortedImages valid) training_sizes) ∧
      (∀ ev ∈ post, ∀ sp em, ev ≠ Event.mkdir sp em) := by
  simp only [organize_dataset, hread, hsec, Option.some.injEq] at horg
  subst horg
  have he : e ∈ sortedImages valid := mem_sortedImages.mpr hmem
  refine ⟨(sortedImages valid).flatMap
      (fun e2 => processEmotion ex e2 (combinedOf ps sec e2)) ++ [Event.success],
    List.append_assoc _ _ _, ?_, ?_, ?_, ?_⟩
  · intro ev hev
    rcases List.mem_append.mp hev with h1 | h2
    · rcases List.mem_map.mp h1 with ⟨em, _, hev2⟩
      exact ⟨"test", em, hev2.symm⟩
    · rcases List.mem_flatMap.mp h2 with ⟨k, _, h3⟩
      rcases List.mem_map.mp h3 with ⟨em, _, hev2⟩
      exact ⟨"train_" ++ toString k, em, hev2.symm⟩
  · exact List.mem_append.mpr (Or.inl (List.mem_map.mpr ⟨e, he, rfl⟩))
  · intro k hk
    exact List.mem_append.mpr (Or.inr (List.mem_flatMap.mpr
      ⟨k, hk, List.mem_map.mpr ⟨e, he, rfl⟩⟩))
  · intro ev hev sp em
    rcases List.mem_append.mp hev with hloop | hsucc
    · rcases List.mem_flatMap.mp hloop with ⟨e2, _, hin⟩
      exact processEmotion_no_mkdir hin sp em
    · rw [List.mem_singleton.mp hsucc]
      simp

/-- Witness for C10: the skipped one-image emotion of `csvOneRow` still gets
its test directory and all five training directories. -/
theorem directories_before_gate_witness :
    organize_dataset (fun _ => true) csvOneRow none = some evsOne ∧
    Event.mkdir "test" "happy"
      ∈ create_directories (sortedImages {"happy"}) training_sizes ∧
    (∀ k ∈ training_sizes, Event.mkdir ("train_" ++ toString k) "happy"
      ∈ create_directories (sortedImages {"happy"}) training_sizes) := by
  have horg : organize_dataset (fun _ => true) csvOneRow none = some evsOne := by decide
  have hread : read_labels csvOneRow = some ({("happy", "a.jpg")}, {"happy"}) := by decide
  have h := directories_before_gate (fun _ => true) csvOneRow none
    {("happy", "a.jpg")} {"happy"} ∅ evsOne "happy" hread rfl horg (by decide)
  obtain ⟨post, _, _, htest, htrain, _⟩ := h
  exact ⟨horg, htest, htrain⟩

end EmotionsSplitter
